import Mathlib

/-!
# Verification of the temporal-data-visual core (src/table.py, src/main.py)

Shallow embedding conventions:

* An absolute instant (python `datetime`) is a `Nat`: minutes since the
  epoch 2024-01-01T00:00.  All datetimes handled by the program are obtained
  from `datetime.fromisoformat`, compared, floored to midnight
  (`replace(hour=0, minute=0, second=0, microsecond=0)`), shifted by
  `timedelta(hours=6)` / `timedelta(days=1)` and formatted; all of these are
  faithfully expressible on minute counts (6 hours = 360, 1 day = 1440).
* `datetime.fromisoformat` is python-stdlib code, not code of this
  repository.  A raw JSON string that the program will try to parse is
  therefore represented by its parse outcome `Option Nat`: `some t` when
  `fromisoformat` succeeds and returns the instant `t`, `none` when it
  raises `ValueError`.  The program parses a given string deterministically,
  so this representation is sound; every place the source calls
  `fromisoformat` the embedding consults that `Option`.
* Python dicts are association lists in insertion order; assignment to an
  existing key replaces the value in place (`updAL`), assignment to a fresh
  key appends.  JSON objects cannot carry duplicate keys, so theorems about
  whole-file loads may assume the top-level entity keys are `Nodup`.
* Fatal python exceptions are `Except String`; per-record `print` warnings
  are returned as an explicit warning list.
-/

namespace TDV

/-- One raw per-event value, as found in the loaded JSON
(`details` in `load_event_data`, src/table.py:469).  The source
distinguishes exactly these shapes with `isinstance` checks:
a plain string (represented by its `fromisoformat` outcome), a dict whose
`"DateTime"` value is a string (outcome plus the remaining string-keyed
attributes), a dict whose `"DateTime"` value is not a string, a dict
without a `"DateTime"` key, and any other value. -/
inductive Detail where
  | str (s : Option Nat)
  | dictDT (s : Option Nat) (extra : List (String × String))
  | dictNonStrDT
  | dictNoDT
  | other
deriving DecidableEq, Repr

/-- A value of the `events` mapping built by `load_event_data`
(src/table.py:459-496): every input entity key is bound to a dict of kept
records, and the reserved key `"min_datetime"` is bound to a bare datetime. -/
inductive EntityVal where
  | evs (records : List (String × Detail))
  | dt (t : Nat)
deriving DecidableEq, Repr

/-- Python dict assignment `d[k] = v` on an association list: replace the
first binding of `k` in place, else append at the end. -/
def updAL {α : Type} (k : String) (v : α) : List (String × α) → List (String × α)
  | [] => [(k, v)]
  | (k', v') :: t => if k' = k then (k, v) :: t else (k', v') :: updAL k v t

/-- Python dict read `d.get(k)` on an association list: first binding wins. -/
def lookupAL {α : Type} (k : String) : List (String × α) → Option α
  | [] => none
  | (k', v') :: t => if k' = k then some v' else lookupAL k t

/-- The raw JSON payload: entity identifier to (event name to raw value). -/
abbrev Raw := List (String × List (String × Detail))

/-- The inner loop of `load_event_data` (src/table.py:469-489) over one
entity's events.  Returns the kept records (a plain string is wrapped as
`{"DateTime": details}`, src/table.py:485), the successfully parsed
instants appended to `all_times`, and the names of the events whose skip
was reported with a `print` warning.  A dict whose `"DateTime"` value is
not a string takes the `isinstance(dt, str)` branch to its implicit
no-op else (src/table.py:473): it is dropped with no warning printed. -/
def proc_records : List (String × Detail) →
    List (String × Detail) × List Nat × List String
  | [] => ([], [], [])
  | (name, d) :: rest =>
    let r := proc_records rest
    match d with
    | .dictDT (some t) ex => ((name, .dictDT (some t) ex) :: r.1, t :: r.2.1, r.2.2)
    | .dictDT none _ => (r.1, r.2.1, name :: r.2.2)
    | .dictNonStrDT => r
    | .dictNoDT => (r.1, r.2.1, name :: r.2.2)
    | .str (some t) => ((name, .dictDT (some t) []) :: r.1, t :: r.2.1, r.2.2)
    | .str none => (r.1, r.2.1, name :: r.2.2)
    | .other => (r.1, r.2.1, name :: r.2.2)

/-- The outer loop of `load_event_data` (src/table.py:467): the `events`
dict is threaded left to right (`events[entity] = {}` then per-record
assignments amount to one dict assignment of the kept records), while
`all_times` and the warning log accumulate in iteration order. -/
def load_core : Raw → List (String × EntityVal) →
    List (String × EntityVal) × List Nat × List (String × String)
  | [], ev => (ev, [], [])
  | (ent, recs) :: rest, ev =>
    let pr := proc_records recs
    let r := load_core rest (updAL ent (.evs pr.1) ev)
    (r.1, pr.2.1 ++ r.2.1, (pr.2.2.map (fun w => (ent, w))) ++ r.2.2)

/-- Result of `load_event_data`: the returned `events` mapping and the
warnings it printed along the way. -/
structure LoadResult where
  events : List (String × EntityVal)
  warnings : List (String × String)
deriving DecidableEq, Repr

/-- Python `min(l)` on a non-empty list, as a fold. -/
def pymin (t : Nat) (ts : List Nat) : Nat := ts.foldl min t

/-- Python `max(l)` on a non-empty list, as a fold. -/
def pymax (t : Nat) (ts : List Nat) : Nat := ts.foldl max t

/-- `load_event_data` (src/table.py:459-496).  `now` is the value
`datetime.now()` would return, used only as the documented fallback when
no timestamp parses.  After the per-entity loop the reserved key
`"min_datetime"` is assigned `min(all_times)` (src/table.py:492),
overwriting any input entity of that name. -/
def load_event_data (raw : Raw) (now : Nat) : LoadResult :=
  let r := load_core raw []
  let md := match r.2.1 with
    | [] => now
    | t :: ts => pymin t ts
  ⟨updAL "min_datetime" (.dt md) r.1, r.2.2⟩

/-- The datetime extraction performed by `generate_time_intervals` on one
stored value (src/table.py:506-512): a dict with a string `"DateTime"`
whose parse succeeds contributes its instant; everything else contributes
nothing (a parse failure only prints). -/
def detailTime : Detail → Option Nat
  | .dictDT (some t) _ => some t
  | _ => none

/-- The `all_times` collection loop of `generate_time_intervals`
(src/table.py:502-512): iterate the events mapping, skip the
`"min_datetime"` key, and gather every extractable instant.  (A bare
datetime bound to any other key would crash python's `.values()` call;
`load_event_data` only ever binds one to `"min_datetime"`, so that branch
is unreachable and contributes nothing.) -/
def collect_times : List (String × EntityVal) → List Nat
  | [] => []
  | (k, v) :: rest =>
    if k = "min_datetime" then collect_times rest
    else
      match v with
      | .evs recs => recs.filterMap (fun r => detailTime r.2) ++ collect_times rest
      | .dt _ => collect_times rest

/-- The interval-emission `while` loop of `generate_time_intervals`
(src/table.py:523-526), with an explicit fuel that bounds the number of
iterations (each iteration advances `cur` by 360 ≥ 1, so `stop - cur`
iterations always suffice); the fuel never changes which list is built. -/
def interval_go : Nat → Nat → Nat → List Nat
  | 0, _, _ => []
  | fuel + 1, cur, stop =>
    if cur < stop then cur :: interval_go fuel (cur + 360) stop else []

/-- The `while current_time < max_time` loop of `generate_time_intervals`,
emitting bucket start instants in 6-hour (= 360-minute) steps. -/
def interval_loop (cur stop : Nat) : List Nat :=
  interval_go (stop - cur) cur stop

/-- `generate_time_intervals` (src/table.py:498-527): collect all valid
instants, fail with `ValueError` when there are none, floor the minimum to
midnight, take the midnight after `max + 1 day`, and emit 6-hour interval
start times between the two. -/
def generate_time_intervals (ev : List (String × EntityVal)) :
    Except String (List Nat) :=
  match collect_times ev with
  | [] => .error "No valid DateTime values found in the dataset."
  | t :: ts =>
    let mn := pymin t ts
    let mx := pymax t ts
    let min_time := mn - mn % 1440
    let max_time := mx + 1440 - (mx + 1440) % 1440
    .ok (interval_loop min_time max_time)

/-- The half-open buckets induced by the interval start list: each column
`col` covers `[start, start + 6 hours)` (`interval_end = interval_start +
timedelta(hours=6)`, src/table.py:144). -/
def buckets_of (l : List Nat) : List (Nat × Nat) :=
  l.map (fun s => (s, s + 360))

/-- The normalized sub-bucket position computed by `populate_table`
(src/table.py:146): `(event_time - interval_start).total_seconds() /
(6 * 3600)`, with instants in minutes so a difference of `d` minutes has
`d * 60` total seconds. -/
def time_fraction (t s : Nat) : ℚ :=
  (((t : ℚ) - (s : ℚ)) * 60) / 21600

/-- The per-dot payload `populate_table` stores in a cell's `Qt.UserRole`
data (src/table.py:157-161); the formatted `"time"` string is represented
by the instant it formats. -/
structure Dot where
  title : String
  time : Nat
  time_fraction : ℚ
deriving DecidableEq, Repr

/-- The sparse table of `QTableWidgetItem` cell payloads, keyed by
`(row, column)`: a cell exists only once something was stored in it. -/
abbrev Table := List ((Nat × Nat) × List Dot)

/-- Association-list update keyed by `(row, column)` (same dict discipline
as `updAL`). -/
def updCell (k : Nat × Nat) (v : List Dot) : Table → Table
  | [] => [(k, v)]
  | (k', v') :: t => if k' = k then (k, v) :: t else (k', v') :: updCell k v t

/-- The dot list currently stored at a cell (`self.item(row, col)`,
empty when the item does not exist yet). -/
def cellDots (tbl : Table) (k : Nat × Nat) : List Dot :=
  match tbl with
  | [] => []
  | (k', v') :: t => if k' = k then v' else cellDots t k

/-- The cell update of `populate_table` (src/table.py:148-162): fetch the
existing item, create it with an empty `"dots"` list when absent, and
append the new dot. -/
def appendDot (tbl : Table) (k : Nat × Nat) (d : Dot) : Table :=
  updCell k (cellDots tbl k ++ [d]) tbl

/-- The dots appended for one entity row by `populate_table`
(src/table.py:132-162), in loop order: per kept record, parse its
`"DateTime"` and append a dot to column `col + 1` for every interval with
`interval_start <= event_time < interval_end`.  Records without a
parseable dict `"DateTime"` are skipped by the `continue` branches; the
remaining shapes never occur in a mapping built by `load_event_data`
(python would raise on them before appending anything). -/
def row_ops (recs : List (String × Detail)) (row : Nat) (intervals : List Nat) :
    List ((Nat × Nat) × Dot) :=
  recs.flatMap (fun r =>
    match r.2 with
    | .dictDT (some t) _ =>
      intervals.enum.filterMap (fun ci =>
        if ci.2 ≤ t ∧ t < ci.2 + 360 then
          some ((row, ci.1 + 1), ⟨r.1, t, time_fraction t ci.2⟩)
        else none)
    | _ => [])

/-- The entity loop of `populate_table` (src/table.py:122-164): start at
`current_row = 2`, skip the `"min_datetime"` key without consuming a row,
and advance one row per remaining entity.  (A bare datetime under any
other key would crash python's `.items()` call; it never occurs in a
mapping built by `load_event_data`.) -/
def dot_ops_go : List (String × EntityVal) → Nat → List Nat →
    List ((Nat × Nat) × Dot)
  | [], _, _ => []
  | (ent, v) :: rest, row, intervals =>
    if ent = "min_datetime" then dot_ops_go rest row intervals
    else
      match v with
      | .evs recs => row_ops recs row intervals ++ dot_ops_go rest (row + 1) intervals
      | .dt _ => dot_ops_go rest (row + 1) intervals

/-- All dot appends performed by one `populate_table` pass, in execution
order. -/
def dot_ops (ev : List (String × EntityVal)) (intervals : List Nat) :
    List ((Nat × Nat) × Dot) :=
  dot_ops_go ev 2 intervals

/-- Apply a sequence of dot appends to a table state. -/
def apply_ops (ops : List ((Nat × Nat) × Dot)) (tbl : Table) : Table :=
  ops.foldl (fun t od => appendDot t od.1 od.2) tbl

/-- `populate_table` (src/table.py:120-164) as a table-state transformer:
the pass reads and mutates only the event cells (columns ≥ 1 of rows ≥ 2),
appending its dots in loop order; the entity-name column and the two
header rows hold plain labels and are not modelled. -/
def populate_table (ev : List (String × EntityVal)) (intervals : List Nat)
    (tbl : Table) : Table :=
  apply_ops (dot_ops ev intervals) tbl

/-- Gregorian civil date (year, month, day) of an instant, via the
standard civil-from-days algorithm; day 0 of the embedding's epoch is
2024-01-01, which is 19723 days after 1970-01-01.  This is the date
`strftime` renders (python's formatting of `fromisoformat`-produced
naive datetimes is plain Gregorian). -/
def civil_date (t : Nat) : Nat × Nat × Nat :=
  let z := t / 1440 + 19723 + 719468
  let era := z / 146097
  let doe := z % 146097
  let yoe := (doe - doe / 1460 + doe / 36524 - doe / 146096) / 365
  let doy := doe - (365 * yoe + yoe / 4 - yoe / 100)
  let mp := (5 * doy + 2) / 153
  let d := doy - (153 * mp + 2) / 5 + 1
  let m := if mp < 10 then mp + 3 else mp - 9
  (yoe + era * 400 + (if m ≤ 2 then 1 else 0), m, d)

/-- The label `strftime("%d-%b")` of a bucket start
(src/table.py:175): day of month and month, with the year dropped. -/
def date_label (t : Nat) : Nat × Nat :=
  ((civil_date t).2.2, (civil_date t).2.1)

/-- The grouping loop of `generate_date_intervals` (src/table.py:173-188)
after its first iteration has initialized the running group:
`col` is the enumeration index of the next bucket, `cd`/`sc`/`sp` the
running group's label, start column and span so far.  A differing label
closes the running group and opens a new one of span 1; the final group
is appended after the loop. -/
def date_go : List Nat → Nat → Nat × Nat → Nat → Nat →
    List ((Nat × Nat) × Nat × Nat)
  | [], _, cd, sc, sp => [(cd, sc, sp)]
  | t :: rest, col, cd, sc, sp =>
    if date_label t = cd then date_go rest (col + 1) cd sc (sp + 1)
    else (cd, sc, sp) :: date_go rest (col + 1) (date_label t) col 1

/-- `generate_date_intervals` (src/table.py:166-190): group consecutive
buckets sharing a `"%d-%b"` label into `(date_label, start_col, span)`
triples.  With no buckets the `current_date is not None` guards keep the
result empty; otherwise the first bucket opens the first group. -/
def generate_date_intervals : List Nat → List ((Nat × Nat) × Nat × Nat)
  | [] => []
  | t :: rest => date_go rest 1 (date_label t) 0 1

/-- The bucket indices covered by a date-group list, in order: each group
contributes `[start_col, start_col + span)`. -/
def groups_cover (g : List ((Nat × Nat) × Nat × Nat)) : List Nat :=
  g.flatMap (fun x => (List.range x.2.2).map (fun j => x.2.1 + j))

/-- The two range-slider handles of the table prototype
(`self.start_slider.value()`, `self.end_slider.value()`,
src/table.py:376-386). -/
structure SliderState where
  lo : Nat
  hi : Nat
deriving DecidableEq, Repr

/-- Qt's `QSlider.setValue` clamps the requested value into the slider's
`[minimum, maximum] = [0, n - 1]` range (`n` = number of intervals,
src/table.py:377-385). -/
def qt_set (n v : Nat) : Nat := min v (n - 1)

/-- `on_slider_change` (src/table.py:405-425): when the handles cross
(`start_index > end_index`) the start slider is set to the end value and
the handler returns; the re-entrant `valueChanged` call then falls
through.  The second `if end_index < start_index` branch repeats the
first condition and is unreachable.  Net effect on the handle pair: an
inverted pair collapses onto the high handle; a legal pair is untouched,
and no update is ever rejected with an error. -/
def on_slider_change (s : SliderState) : SliderState :=
  if s.hi < s.lo then { s with lo := s.hi } else s

/-- A user gesture moving the start slider: Qt clamps the requested value,
then `valueChanged` runs `on_slider_change`. -/
def set_low (n v : Nat) (s : SliderState) : SliderState :=
  on_slider_change { s with lo := qt_set n v }

/-- A user gesture moving the end slider. -/
def set_high (n v : Nat) (s : SliderState) : SliderState :=
  on_slider_change { s with hi := qt_set n v }

/-- A gesture moving both handles (both sliders set, then the handler
runs on the resulting pair). -/
def set_range (n vlo vhi : Nat) (_s : SliderState) : SliderState :=
  on_slider_change { lo := qt_set n vlo, hi := qt_set n vhi }

/-- One view-originated range update. -/
inductive SliderOp where
  | low (v : Nat)
  | high (v : Nat)
  | range (vlo vhi : Nat)
deriving DecidableEq, Repr

/-- Apply one range update. -/
def apply_op (n : Nat) (s : SliderState) : SliderOp → SliderState
  | .low v => set_low n v s
  | .high v => set_high n v s
  | .range vlo vhi => set_range n vlo vhi s

/-- Apply a sequence of range updates in order. -/
def run_ops (n : Nat) (ops : List SliderOp) (s : SliderState) : SliderState :=
  ops.foldl (apply_op n) s

/-- The `colors` palette of `draw_data_points` (src/main.py:189). -/
def draw_colors : List (String × String) :=
  [("truth", "#2E8B57"), ("match", "#6495ED"), ("discrepancy", "#FF6347")]

/-- One scatter point produced by `draw_data_points`
(src/main.py:207-231): x position in hours since `min_datetime`, y
centered in the entity's row, fill color, and the event name the hover
tooltip starts with. -/
structure SPoint where
  x : ℚ
  y : ℚ
  color : String
  tooltipName : String
deriving DecidableEq, Repr

/-- The datetime extraction of `draw_data_points` (src/main.py:200-205),
which calls `fromisoformat` with no exception handler: `none` means the
record is skipped by the `else: continue`, `some none` means python
raises out of the whole pass (unparseable string, or a non-string
`"DateTime"` value), `some (some t)` is a drawable instant. -/
def draw_time : Detail → Option (Option Nat)
  | .dictDT (some t) _ => some (some t)
  | .dictDT none _ => some none
  | .dictNonStrDT => some none
  | .dictNoDT => none
  | .str s => some s
  | .other => none

/-- The inner record loop of `draw_data_points` for one row
(src/main.py:199-231): each drawable record yields a point at
`hours_since_start = (event_time - events["min_datetime"])
.total_seconds() / 3600` (minutes / 60), `y = i + 0.5`, colored
`colors["truth"]` exactly when the event name is `"Flight Departure"`
and `colors["match"]` otherwise (src/main.py:211).  Reading
`events["min_datetime"]` crashes unless it is bound to a bare datetime. -/
def row_points (recs : List (String × Detail)) (i : Nat)
    (ev : List (String × EntityVal)) : Except String (List SPoint) :=
  match recs with
  | [] => .ok []
  | (name, d) :: rest =>
    match draw_time d with
    | none => row_points rest i ev
    | some none => .error "fromisoformat raised"
    | some (some t) =>
      match lookupAL "min_datetime" ev with
      | some (.dt m) => do
        let ps ← row_points rest i ev
        .ok (⟨((t : ℚ) - (m : ℚ)) * 60 / 3600, (i : ℚ) + 1 / 2,
              (if name = "Flight Departure" then "#2E8B57" else "#6495ED"),
              name⟩ :: ps)
      | _ => .error "min_datetime missing or not a datetime"

/-- The row loop of `draw_data_points` (src/main.py:194-197):
`events.get(label, {})` falls back to an empty dict, and a non-dict value
(the `"min_datetime"` sentinel) is skipped by the `isinstance` guard. -/
def draw_rows : List (Nat × String) → List (String × EntityVal) →
    Except String (List SPoint)
  | [], _ => .ok []
  | (i, lab) :: rest, ev =>
    match lookupAL lab ev with
    | some (.evs recs) => do
      let ps ← row_points recs i ev
      let qs ← draw_rows rest ev
      .ok (ps ++ qs)
    | _ => draw_rows rest ev

/-- `draw_data_points` (src/main.py:187-231): enumerate the y labels and
draw every drawable record of each labelled entity. -/
def draw_data_points (ev : List (String × EntityVal)) (labels : List String) :
    Except String (List SPoint) :=
  draw_rows labels.enum ev

/-- The dataset-derived state `open_file` replaces (src/table.py:328-329). -/
structure AppState where
  events : List (String × EntityVal)
  time_intervals : List Nat
deriving DecidableEq, Repr

/-- `open_file` (src/table.py:321-354).  `file = none` covers a cancelled
dialog and every exception raised before `self.events` is assigned (file
I/O, `json.load`, and the shape errors `load_event_data` itself raises),
all of which leave both fields untouched.  With a structurally well-formed
payload, `self.events` is assigned first; if `generate_time_intervals`
then raises (no valid instants) the `except` handler only shows a message
box, so the new events mapping stays while `self.time_intervals` keeps its
previous value. -/
def open_file (st : AppState) (file : Option Raw) (now : Nat) : AppState :=
  match file with
  | none => st
  | some raw =>
    let ev := (load_event_data raw now).events
    match generate_time_intervals ev with
    | .error _ => { st with events := ev }
    | .ok l => ⟨ev, l⟩

/-! ### Claim-side comparison definitions (from the spec's words) -/

/-- From the spec's words: the first midnight at or after an instant. -/
def midnight_on_or_after (t : Nat) : Nat :=
  if t % 1440 = 0 then t else t - t % 1440 + 1440

/-- From the spec's words: the end of the bucket sequence is
`midnight_on_or_after(max_instant)`, advanced by a full day if it equals
`max_instant` exactly. -/
def claim_end (t : Nat) : Nat :=
  if t % 1440 = 0 then midnight_on_or_after t + 1440 else midnight_on_or_after t

/-- The instant `load_event_data` manages to extract from one raw record
(either accepted shape, successfully parsed), `none` when the record is
skipped. -/
def recordTime : Detail → Option Nat
  | .dictDT (some t) _ => some t
  | .str (some t) => some t
  | _ => none

/-- The stored form of a kept record: a dict record is kept as is, a plain
timestamp string is wrapped as `{"DateTime": details}`. -/
def kept_record : String × Detail → Option (String × Detail)
  | (name, .dictDT (some t) ex) => some (name, .dictDT (some t) ex)
  | (name, .str (some t)) => some (name, .dictDT (some t) [])
  | _ => none

/-- Whether skipping a record of this shape prints a warning in
`load_event_data`: every skipped shape does, except a dict whose
`"DateTime"` value is not a string. -/
def warn_shape : Detail → Bool
  | .dictDT none _ => true
  | .dictNoDT => true
  | .str none => true
  | .other => true
  | _ => false

/-- Every instant successfully parsed from the raw payload, in order
(the `all_times` list of `load_event_data`). -/
def all_raw_times (raw : Raw) : List Nat :=
  raw.flatMap (fun p => p.2.filterMap (fun r => recordTime r.2))

/-- No raw record belonging to an entity other than the reserved name
`"min_datetime"` parses successfully. -/
def no_valid_outside_sentinel (raw : Raw) : Prop :=
  ∀ p ∈ raw, p.1 ≠ "min_datetime" → ∀ r ∈ p.2, recordTime r.2 = none

instance (raw : Raw) : Decidable (no_valid_outside_sentinel raw) := by
  unfold no_valid_outside_sentinel; infer_instance

/-- From the spec's words: the claimed default classification — the
designated reference entity's events are `"truth"`, other entities'
events at a timestamp matching one of the reference entity's are
`"match"`, all remaining events are `"discrepancy"`. -/
def spec_category (ref entity : String) (t : Nat) (truthTs : List Nat) : String :=
  if entity = ref then "truth"
  else if truthTs.contains t then "match"
  else "discrepancy"

/-- The fill color the palette assigns to a category name. -/
def hex_of (c : String) : String :=
  (lookupAL c draw_colors).getD ""

/-! ### Concrete datasets used to instantiate universally quantified
theorems and to evaluate the code at specific inputs -/

/-- A one-entity, one-event mapping (event at 08:20 on day 0). -/
def evW : List (String × EntityVal) :=
  [("A", .evs [("e", .dictDT (some 500) [])])]

/-- The raw payload of the spec's worked example: events at
2024-01-01T06:00, 2024-01-01T12:00 and 2024-01-02T03:00, in minutes since
the epoch. -/
def raw9 : Raw :=
  [("A", [("e1", .str (some 360)), ("e2", .str (some 720)),
          ("e3", .str (some 1620))])]

/-- The events mapping loaded from `raw9`. -/
def ev9 : List (String × EntityVal) := (load_event_data raw9 0).events

/-- The bucket starts the code generates for `raw9`: all eight 6-hour
buckets of day 1 and day 2. -/
def full9 : List Nat := [0, 360, 720, 1080, 1440, 1800, 2160, 2520]

/-- A two-entity mapping: entity `"A"` has a `"Flight Departure"` at
minute 0 and an `"Arrival"` at minute 600, entity `"B"` has a
`"Flight Departure"` at minute 0. -/
def evD : List (String × EntityVal) :=
  [("A", .evs [("Flight Departure", .dictDT (some 0) []),
               ("Arrival", .dictDT (some 600) [])]),
   ("B", .evs [("Flight Departure", .dictDT (some 0) [])]),
   ("min_datetime", .dt 0)]

/-- The timestamps of the designated reference entity's events in `evD`,
for each possible designation. -/
def truth_times (ref : String) : List Nat :=
  if ref = "A" then [0, 600] else if ref = "B" then [0] else []

/-- A payload with a single malformed record: structurally readable, zero
parseable timestamps. -/
def raw_bad : Raw := [("A", [("e", .other)])]

/-- A previously loaded application state. -/
def st_old : AppState :=
  ⟨[("Old", .evs [("x", .dictDT (some 0) [])]), ("min_datetime", .dt 0)],
   [0, 360, 720, 1080]⟩

/-- A payload with one silently dropped record (dict with a non-string
`"DateTime"`) next to one valid record. -/
def raw_silent : Raw :=
  [("A", [("bad", .dictNonStrDT), ("good", .str (some 0))])]

/-- A payload whose only (valid) records belong to an entity literally
named `"min_datetime"`. -/
def raw_sentinel : Raw := [("min_datetime", [("e", .str (some 0))])]

/-- A payload containing both an entity literally named `"min_datetime"`
and an ordinary entity. -/
def rawW : Raw :=
  [("min_datetime", [("e", .str (some 100))]),
   ("B", [("e2", .str (some 2000))])]

/-- A one-entity, one-record dataset for exercising the binning pass. -/
def ev1 : List (String × EntityVal) :=
  [("A", .evs [("e", .dictDT (some 10) [])])]

/-- The instant bound to the reserved `"min_datetime"` key: the minimum
successfully parsed timestamp, or the `datetime.now()` fallback when none
parse (src/table.py:491-494). -/
def min_datetime_of (raw : Raw) (now : Nat) : Nat :=
  match all_raw_times raw with
  | [] => now
  | t :: ts => pymin t ts

/-! ### Association-list lemmas -/

theorem lookupAL_updAL_self {α : Type} (k : String) (v : α) (l : List (String × α)) :
    lookupAL k (updAL k v l) = some v := by
  induction l with
  | nil => simp [updAL, lookupAL]
  | cons p t ih =>
    by_cases h : p.1 = k
    · simp [updAL, lookupAL, h]
    · simpa [updAL, lookupAL, h] using ih

theorem lookupAL_updAL_ne {α : Type} {k k' : String} (h : k' ≠ k) (v : α)
    (l : List (String × α)) : lookupAL k' (updAL k v l) = lookupAL k' l := by
  have h2 : k ≠ k' := Ne.symm h
  induction l with
  | nil => simp [updAL, lookupAL, h2]
  | cons p t ih =>
    obtain ⟨qk, qv⟩ := p
    by_cases hp : qk = k
    · subst hp
      simp [updAL, lookupAL, h2]
    · by_cases hk : qk = k'
      · simp [updAL, lookupAL, hp, hk, h]
      · simp [updAL, lookupAL, hp, hk, ih]

theorem mem_updAL {α : Type} {p : String × α} {k : String} {v : α}
    {l : List (String × α)} (h : p ∈ updAL k v l) : p = (k, v) ∨ p ∈ l := by
  induction l with
  | nil => simpa [updAL] using h
  | cons q t ih =>
    obtain ⟨qk, qv⟩ := q
    by_cases hq : qk = k
    · rw [updAL, if_pos hq] at h
      rcases List.mem_cons.mp h with h | h
      · exact Or.inl h
      · exact Or.inr (List.mem_cons_of_mem _ h)
    · rw [updAL, if_neg hq] at h
      rcases List.mem_cons.mp h with h | h
      · exact Or.inr (h ▸ List.mem_cons_self _ _)
      · rcases ih h with h' | h'
        · exact Or.inl h'
        · exact Or.inr (List.mem_cons_of_mem _ h')

theorem updAL_of_not_mem {α : Type} {k : String} {l : List (String × α)}
    (h : k ∉ l.map Prod.fst) (v : α) : updAL k v l = l ++ [(k, v)] := by
  induction l with
  | nil => simp [updAL]
  | cons p t ih =>
    simp only [List.map_cons, List.mem_cons] at h
    push_neg at h
    simp [updAL, Ne.symm h.1, ih h.2]

theorem keys_updAL_mem {α : Type} {k : String} {l : List (String × α)}
    (h : k ∈ l.map Prod.fst) (v : α) :
    (updAL k v l).map Prod.fst = l.map Prod.fst := by
  induction l with
  | nil => simp at h
  | cons p t ih =>
    by_cases hp : p.1 = k
    · simp [updAL, hp]
    · simp only [List.map_cons, List.mem_cons] at h
      rcases h with h | h
      · exact absurd h.symm hp
      · simp [updAL, hp, ih h]

theorem lookupAL_of_mem_nodup {α : Type} {l : List (String × α)}
    (hn : (l.map Prod.fst).Nodup) {k : String} {v : α} (h : (k, v) ∈ l) :
    lookupAL k l = some v := by
  induction l with
  | nil => simp at h
  | cons p t ih =>
    simp only [List.map_cons, List.nodup_cons] at hn
    rcases List.mem_cons.mp h with h | h
    · simp [lookupAL, ← h]
    · have hk : p.1 ≠ k := by
        intro hpk
        exact hn.1 (hpk ▸ List.mem_map.mpr ⟨(k, v), h, rfl⟩)
      simp [lookupAL, hk, ih hn.2 h]

theorem mem_of_lookupAL {α : Type} {l : List (String × α)} {k : String} {v : α}
    (h : lookupAL k l = some v) : (k, v) ∈ l := by
  induction l with
  | nil => simp [lookupAL] at h
  | cons p t ih =>
    obtain ⟨qk, qv⟩ := p
    by_cases hp : qk = k
    · rw [lookupAL, if_pos hp] at h
      have hv : qv = v := Option.some.inj h
      subst hp; subst hv
      exact List.mem_cons_self _ _
    · rw [lookupAL, if_neg hp] at h
      exact List.mem_cons_of_mem _ (ih h)

theorem cellDots_updCell (t : Table) (key k : Nat × Nat) (v : List Dot) :
    cellDots (updCell key v t) k = if k = key then v else cellDots t k := by
  induction t with
  | nil =>
    by_cases h : k = key <;> simp [updCell, cellDots, h, Ne.symm]
  | cons p r ih =>
    by_cases hp : p.1 = key
    · by_cases h : k = key <;> simp [updCell, cellDots, hp, h, Ne.symm]
    · by_cases h : p.1 = k
      · have : ¬ k = key := fun hk => hp (h.trans hk)
        simp [updCell, cellDots, hp, h, this]
      · simp [updCell, cellDots, hp, h, ih]

theorem cellDots_appendDot (t : Table) (key k : Nat × Nat) (d : Dot) :
    cellDots (appendDot t key d) k =
      cellDots t k ++ (if k = key then [d] else []) := by
  unfold appendDot
  rw [cellDots_updCell]
  by_cases h : k = key <;> simp [h]

/-! ### Interval-loop lemmas -/

theorem interval_go_eq (fuel : Nat) : ∀ cur stop : Nat, stop - cur ≤ fuel →
    interval_go fuel cur stop =
      (List.range ((stop - cur + 359) / 360)).map (fun k => cur + 360 * k) := by
  induction fuel with
  | zero =>
    intro cur stop h
    have hz : stop - cur = 0 := Nat.le_zero.mp h
    have : (stop - cur + 359) / 360 = 0 := by omega
    simp [interval_go, this]
  | succ fuel ih =>
    intro cur stop h
    by_cases hlt : cur < stop
    · have hdiv : (stop - cur + 359) / 360 = (stop - (cur + 360) + 359) / 360 + 1 := by
        omega
      rw [interval_go, if_pos hlt, ih (cur + 360) stop (by omega), hdiv,
        List.range_succ_eq_map]
      have harg : ∀ k, cur + 360 * Nat.succ k = cur + 360 + 360 * k := by
        intro k; omega
      simp [List.map_map, Function.comp, harg]
    · have : (stop - cur + 359) / 360 = 0 := by omega
      simp [interval_go, hlt, this]

theorem interval_loop_eq (cur stop : Nat) :
    interval_loop cur stop =
      (List.range ((stop - cur + 359) / 360)).map (fun k => cur + 360 * k) :=
  interval_go_eq _ _ _ le_rfl

theorem rml_length (n : Nat) (f : Nat → Nat) :
    ((List.range n).map f).length = n := by simp

theorem rml_getD (n : Nat) (f : Nat → Nat) {k : Nat} (h : k < n) :
    ((List.range n).map f).getD k 0 = f k := by
  rw [List.getD_eq_getElem _ _ (by simpa using h)]
  simp

/-! ### Fold min / max lemmas -/

theorem pymin_le (t : Nat) (ts : List Nat) : pymin t ts ≤ t := by
  induction ts generalizing t with
  | nil => exact le_rfl
  | cons x xs ih =>
    exact le_trans (ih (min t x)) (min_le_left _ _)

theorem le_pymax (t : Nat) (ts : List Nat) : t ≤ pymax t ts := by
  induction ts generalizing t with
  | nil => exact le_rfl
  | cons x xs ih =>
    exact le_trans (le_max_left _ _) (ih (max t x))

theorem pymin_le_pymax (t : Nat) (ts : List Nat) : pymin t ts ≤ pymax t ts :=
  le_trans (pymin_le t ts) (le_pymax t ts)

/-! ### Shape of `generate_time_intervals` results -/

theorem generate_eq_of_collect {ev : List (String × EntityVal)} {t : Nat}
    {ts : List Nat} (h : collect_times ev = t :: ts) :
    generate_time_intervals ev =
      .ok (interval_loop (pymin t ts - pymin t ts % 1440)
        (pymax t ts + 1440 - (pymax t ts + 1440) % 1440)) := by
  unfold generate_time_intervals
  rw [h]

theorem generate_ok_inv {ev : List (String × EntityVal)} {l : List Nat}
    (h : generate_time_intervals ev = .ok l) :
    ∃ t ts, collect_times ev = t :: ts ∧
      l = interval_loop (pymin t ts - pymin t ts % 1440)
        (pymax t ts + 1440 - (pymax t ts + 1440) % 1440) := by
  unfold generate_time_intervals at h
  cases hc : collect_times ev with
  | nil => rw [hc] at h; exact absurd h (by simp)
  | cons t ts =>
    rw [hc] at h
    simp only [Except.ok.injEq] at h
    exact ⟨t, ts, rfl, h.symm⟩

theorem generate_error_iff (ev : List (String × EntityVal)) :
    (∃ m, generate_time_intervals ev = .error m) ↔ collect_times ev = [] := by
  unfold generate_time_intervals
  cases hc : collect_times ev <;> simp

theorem time_fraction_bounds {s t : Nat} (h1 : s ≤ t) (h2 : t < s + 360) :
    0 ≤ time_fraction t s ∧ time_fraction t s < 1 := by
  have hq1 : (s : ℚ) ≤ t := by exact_mod_cast h1
  have hq2 : (t : ℚ) < s + 360 := by exact_mod_cast h2
  unfold time_fraction
  constructor
  · apply div_nonneg _ (by norm_num)
    nlinarith
  · rw [div_lt_one (by norm_num)]
    nlinarith

/-- C1: for every non-empty set of valid event timestamps, the generated
interval sequence consists of buckets in strictly increasing, contiguous,
non-overlapping order (each start is the previous start plus the width,
so each bucket's end equals the next bucket's start), all of identical
width (6 hours = 360 minutes), with the first bucket starting at the
midnight on or before the minimum timestamp and the last bucket ending at
the midnight on or after the maximum timestamp, advanced by a full day
when the maximum timestamp falls exactly at midnight (`claim_end`). -/
theorem C1_bucket_sequence_invariants (ev : List (String × EntityVal))
    (t : Nat) (ts : List Nat) (h : collect_times ev = t :: ts) :
    ∃ l, generate_time_intervals ev = .ok l ∧ l ≠ [] ∧
      (∀ i, i + 1 < l.length → l.getD (i + 1) 0 = l.getD i 0 + 360) ∧
      (∀ b ∈ buckets_of l, b.2 = b.1 + 360) ∧
      l.getD 0 0 % 1440 = 0 ∧
      l.getD 0 0 ≤ pymin t ts ∧ pymin t ts < l.getD 0 0 + 1440 ∧
      l.getD (l.length - 1) 0 + 360 = claim_end (pymax t ts) := by
  have hmnx := pymin_le_pymax t ts
  set mn := pymin t ts with hmn_def
  set mx := pymax t ts with hmx_def
  set a := mn - mn % 1440 with ha_def
  set b := mx + 1440 - (mx + 1440) % 1440 with hb_def
  set n := (b - a + 359) / 360 with hn_def
  have hL : interval_loop a b = (List.range n).map (fun k => a + 360 * k) :=
    interval_loop_eq a b
  have hmod : a % 1440 = 0 := by omega
  have hpos : 0 < n := by omega
  have hdvd : 360 * n = b - a := by omega
  have hlen : ((List.range n).map (fun k => a + 360 * k)).length = n := by simp
  refine ⟨interval_loop a b, generate_eq_of_collect h, ?_, ?_, ?_, ?_, ?_, ?_, ?_⟩
  · rw [hL]
    intro hnil
    have := congrArg List.length hnil
    simp at this
    omega
  · rw [hL]
    intro i hi
    rw [hlen] at hi
    rw [rml_getD n _ hi, rml_getD n _ (by omega)]
    omega
  · rw [hL]
    intro bk hbk
    simp only [buckets_of, List.mem_map] at hbk
    obtain ⟨s, _, rfl⟩ := hbk
    rfl
  · rw [hL, rml_getD n _ hpos]
    simpa using hmod
  · rw [hL, rml_getD n _ hpos]
    omega
  · rw [hL, rml_getD n _ hpos]
    omega
  · rw [hL, hlen, rml_getD n _ (by omega)]
    unfold claim_end midnight_on_or_after
    split_ifs <;> omega

/-- Witness: `C1_bucket_sequence_invariants` instantiated at the concrete
one-event dataset `evW`. -/
theorem C1_witness :
    ∃ l, generate_time_intervals evW = .ok l ∧ l ≠ [] ∧
      (∀ i, i + 1 < l.length → l.getD (i + 1) 0 = l.getD i 0 + 360) ∧
      (∀ b ∈ buckets_of l, b.2 = b.1 + 360) ∧
      l.getD 0 0 % 1440 = 0 ∧
      l.getD 0 0 ≤ pymin 500 [] ∧ pymin 500 [] < l.getD 0 0 + 1440 ∧
      l.getD (l.length - 1) 0 + 360 = claim_end (pymax 500 []) :=
  C1_bucket_sequence_invariants evW 500 [] rfl

/-- C2: every event whose timestamp lies within the span of the generated
bucket sequence is matched by exactly one bucket's half-open interval
`[start, start + 6h)` (so a boundary event belongs to the later bucket),
and for the matching bucket the computed fraction lies in `[0, 1)`. -/
theorem C2_unique_bucket_and_fraction (ev : List (String × EntityVal))
    (l : List Nat) (hgen : generate_time_intervals ev = .ok l) (t : Nat)
    (hlo : l.getD 0 0 ≤ t) (hhi : t < l.getD (l.length - 1) 0 + 360) :
    (∃! c, c < l.length ∧ l.getD c 0 ≤ t ∧ t < l.getD c 0 + 360) ∧
    ∀ c, c < l.length → l.getD c 0 ≤ t → t < l.getD c 0 + 360 →
      0 ≤ time_fraction t (l.getD c 0) ∧ time_fraction t (l.getD c 0) < 1 := by
  obtain ⟨u, us, hc, hl⟩ := generate_ok_inv hgen
  have hmnx := pymin_le_pymax u us
  set mn := pymin u us with hmn_def
  set mx := pymax u us with hmx_def
  set a := mn - mn % 1440 with ha_def
  set b := mx + 1440 - (mx + 1440) % 1440 with hb_def
  set n := (b - a + 359) / 360 with hn_def
  rw [interval_loop_eq] at hl
  subst hl
  have hpos : 0 < n := by omega
  have hdvd : 360 * n = b - a := by omega
  have hlen : ((List.range n).map (fun k => a + 360 * k)).length = n := by simp
  rw [hlen] at hhi ⊢
  rw [rml_getD n _ hpos] at hlo
  rw [rml_getD n _ (by omega)] at hhi
  have hspan : t < a + 360 * n := by omega
  constructor
  · refine ⟨(t - a) / 360, ⟨by omega, ?_, ?_⟩, ?_⟩
    · rw [rml_getD n _ (by omega)]
      omega
    · rw [rml_getD n _ (by omega)]
      omega
    · intro c hcp
      obtain ⟨hc1, hc2, hc3⟩ := hcp
      rw [rml_getD n _ hc1] at hc2 hc3
      omega
  · intro c hc1 hc2 hc3
    rw [rml_getD n _ hc1] at hc2 hc3 ⊢
    exact time_fraction_bounds hc2 hc3

/-- Witness: `C2_unique_bucket_and_fraction` at the concrete dataset
`evW`, its generated buckets, and the in-span instant 700. -/
theorem C2_witness :
    (∃! c, c < ([0, 360, 720, 1080] : List Nat).length ∧
       ([0, 360, 720, 1080] : List Nat).getD c 0 ≤ 700 ∧
       700 < ([0, 360, 720, 1080] : List Nat).getD c 0 + 360) ∧
    ∀ c, c < ([0, 360, 720, 1080] : List Nat).length →
      ([0, 360, 720, 1080] : List Nat).getD c 0 ≤ 700 →
      700 < ([0, 360, 720, 1080] : List Nat).getD c 0 + 360 →
      0 ≤ time_fraction 700 (([0, 360, 720, 1080] : List Nat).getD c 0) ∧
      time_fraction 700 (([0, 360, 720, 1080] : List Nat).getD c 0) < 1 :=
  C2_unique_bucket_and_fraction evW [0, 360, 720, 1080] rfl 700
    (by decide) (by decide)

theorem on_slider_change_le (s : SliderState) :
    (on_slider_change s).lo ≤ (on_slider_change s).hi := by
  unfold on_slider_change
  split
  · simp
  · omega

theorem apply_op_le (n : Nat) (s : SliderState) (op : SliderOp) :
    (apply_op n s op).lo ≤ (apply_op n s op).hi := by
  cases op <;> apply on_slider_change_le

theorem run_ops_le (n : Nat) (ops : List SliderOp) (s : SliderState)
    (h : s.lo ≤ s.hi) : (run_ops n ops s).lo ≤ (run_ops n ops s).hi := by
  induction ops generalizing s with
  | nil => exact h
  | cons op rest ih => exact ih (apply_op n s op) (apply_op_le n s op)

/-- C3: after any sequence of range-selection updates (set_low / set_high
/ set_range in any adversarial order) starting from a legal state, the
selection invariant `low ≤ high` holds after each update, and an update
that would invert the handles (setting low above the current high) is
clamped to `low = current high` — the result is a total state, never an
error. -/
theorem C3_range_selection_invariant (n : Nat) (ops : List SliderOp)
    (s0 : SliderState) (h0 : s0.lo ≤ s0.hi) :
    (∀ k, (run_ops n (ops.take k) s0).lo ≤ (run_ops n (ops.take k) s0).hi) ∧
    (∀ v s, s.hi < v → s.hi + 1 ≤ n → set_low n v s = ⟨s.hi, s.hi⟩) := by
  constructor
  · intro k
    exact run_ops_le n (ops.take k) s0 h0
  · intro v s hv hn
    obtain ⟨lo, hi⟩ := s
    simp only at hv hn
    unfold set_low on_slider_change qt_set
    simp only
    split <;> simp_all
    omega

/-- Witness: `C3_range_selection_invariant` at a concrete adversarial
update sequence, projected to the state after the first (overshooting)
update. -/
theorem C3_witness :
    (run_ops 4 ([SliderOp.low 10, SliderOp.high 2,
        SliderOp.range 3 1].take 1) ⟨0, 3⟩).lo ≤
      (run_ops 4 ([SliderOp.low 10, SliderOp.high 2,
        SliderOp.range 3 1].take 1) ⟨0, 3⟩).hi :=
  (C3_range_selection_invariant 4 [SliderOp.low 10, SliderOp.high 2,
    SliderOp.range 3 1] ⟨0, 3⟩ (by decide)).1 1

/-! ### Date-group lemmas -/

theorem date_go_cover (rest : List Nat) :
    ∀ (col : Nat) (cd : Nat × Nat) (sc sp : Nat), col = sc + sp →
      groups_cover (date_go rest col cd sc sp) =
        (List.range (sp + rest.length)).map (fun j => sc + j) := by
  induction rest with
  | nil =>
    intro col cd sc sp _
    simp [date_go, groups_cover]
  | cons t r ih =>
    intro col cd sc sp h
    by_cases hl : date_label t = cd
    · rw [date_go, if_pos hl, ih (col + 1) cd sc (sp + 1) (by omega)]
      rw [show sp + (t :: r).length = sp + 1 + r.length by simp; omega]
    · rw [date_go, if_neg hl]
      have hcov : groups_cover ((cd, sc, sp) :: date_go r (col + 1) (date_label t) col 1) =
          (List.range sp).map (fun j => sc + j) ++
            groups_cover (date_go r (col + 1) (date_label t) col 1) := by
        simp [groups_cover]
      rw [hcov, ih (col + 1) (date_label t) col 1 (by omega)]
      conv_rhs =>
        rw [show sp + (t :: r).length = sp + (1 + r.length) by simp; omega,
          List.range_add, List.map_append, List.map_map]
      congr 1
      have : (fun j => sc + j) ∘ (fun x => sp + x) = fun x => col + x := by
        funext x
        simp [Function.comp]
        omega
      rw [this]

theorem date_go_spans (rest : List Nat) :
    ∀ (col : Nat) (cd : Nat × Nat) (sc sp : Nat), 1 ≤ sp →
      ∀ x ∈ date_go rest col cd sc sp, 1 ≤ x.2.2 := by
  induction rest with
  | nil =>
    intro col cd sc sp hsp x hx
    simp [date_go] at hx
    subst hx
    exact hsp
  | cons t r ih =>
    intro col cd sc sp hsp x hx
    by_cases hl : date_label t = cd
    · rw [date_go, if_pos hl] at hx
      exact ih (col + 1) cd sc (sp + 1) (by omega) x hx
    · rw [date_go, if_neg hl] at hx
      rcases List.mem_cons.mp hx with hx | hx
      · subst hx
        exact hsp
      · exact ih (col + 1) (date_label t) col 1 le_rfl x hx

theorem date_go_const (rest : List Nat) :
    ∀ (col : Nat) (cd : Nat × Nat) (sc sp : Nat),
      (∀ u ∈ rest, date_label u = cd) →
      date_go rest col cd sc sp = [(cd, sc, sp + rest.length)] := by
  induction rest with
  | nil =>
    intro col cd sc sp _
    simp [date_go]
  | cons t r ih =>
    intro col cd sc sp hall
    rw [date_go, if_pos (hall t (List.mem_cons_self _ _)),
      ih (col + 1) cd sc (sp + 1) (fun u hu => hall u (List.mem_cons_of_mem _ hu))]
    rw [show sp + 1 + r.length = sp + (t :: r).length by simp; omega]

/-- C6: for every bucket sequence, the date groups form a partition of
the bucket indices: their spans cover every bucket index exactly once and
in index order (the concatenation of the groups' index ranges is exactly
`range l.length`), each span is at least 1, and when all buckets share
one calendar date exactly one group spanning everything is returned. -/
theorem C6_date_groups_partition (l : List Nat) :
    groups_cover (generate_date_intervals l) = List.range l.length ∧
    (∀ x ∈ generate_date_intervals l, 1 ≤ x.2.2) ∧
    (∀ t0 rest, l = t0 :: rest →
      (∀ u ∈ l, civil_date u = civil_date t0) →
      generate_date_intervals l = [(date_label t0, 0, l.length)]) := by
  refine ⟨?_, ?_, ?_⟩
  · cases l with
    | nil => simp [generate_date_intervals, groups_cover]
    | cons t rest =>
      rw [generate_date_intervals,
        date_go_cover rest 1 (date_label t) 0 1 (by omega)]
      simp [Nat.add_comm]
  · cases l with
    | nil => simp [generate_date_intervals]
    | cons t rest =>
      rw [generate_date_intervals]
      exact date_go_spans rest 1 (date_label t) 0 1 le_rfl
  · intro t0 rest hl hall
    subst hl
    rw [generate_date_intervals, date_go_const rest 1 (date_label t0) 0 1 ?_]
    · rw [show 1 + rest.length = (t0 :: rest).length by simp; omega]
    · intro u hu
      unfold date_label
      rw [hall u (List.mem_cons_of_mem _ hu)]

/-- Witness: `C6_date_groups_partition` at the two-bucket sequence
`[0, 360]`, whose buckets share the calendar date 2024-01-01. -/
theorem C6_witness :
    generate_date_intervals [0, 360] =
      [(date_label 0, 0, ([0, 360] : List Nat).length)] :=
  (C6_date_groups_partition [0, 360]).2.2 0 [360] rfl (by decide)

/-! ### Binning-pass accumulation lemmas -/

theorem cellDots_apply_ops (ops : List ((Nat × Nat) × Dot)) :
    ∀ (t : Table) (k : Nat × Nat),
      cellDots (apply_ops ops t) k = cellDots t k ++ cellDots (apply_ops ops []) k := by
  induction ops with
  | nil =>
    intro t k
    simp [apply_ops, cellDots]
  | cons op rest ih =>
    intro t k
    have h1 : apply_ops (op :: rest) t = apply_ops rest (appendDot t op.1 op.2) := rfl
    have h2 : apply_ops (op :: rest) [] = apply_ops rest (appendDot [] op.1 op.2) := rfl
    rw [h1, ih (appendDot t op.1 op.2) k, cellDots_appendDot]
    conv_rhs => rw [h2, ih (appendDot [] op.1 op.2) k, cellDots_appendDot]
    simp [cellDots]

/-- C7 counterexample: running the binning pass twice over the same
events and buckets, starting from the state left by the first run, does
NOT yield the state of a single run — on the concrete one-event dataset
`ev1` the populated cell's dot is appended a second time. -/
theorem C7_counterexample :
    populate_table ev1 [0] (populate_table ev1 [0] []) ≠
      populate_table ev1 [0] [] := by
  intro h
  have := congrArg (fun tb => (cellDots tb (2, 1)).length) h
  simp [populate_table, apply_ops, dot_ops, dot_ops_go, row_ops, List.enum,
    List.enumFrom, appendDot, updCell, cellDots] at this

/-- C7 amended: the binning pass is deterministic and purely additive —
re-running it on the state left by the first run appends every dot again,
so each cell ends up with the single-run dot list concatenated with
itself (instead of the identical result the claim states); running it
from an empty table always yields the same result. -/
theorem C7_binning_not_idempotent (ev : List (String × EntityVal))
    (intervals : List Nat) (k : Nat × Nat) :
    cellDots (populate_table ev intervals (populate_table ev intervals [])) k =
      cellDots (populate_table ev intervals []) k ++
        cellDots (populate_table ev intervals []) k := by
  unfold populate_table
  rw [cellDots_apply_ops]

/-! ### Load-pipeline lemmas -/

theorem flatMap_nil_iff {α β : Type} (f : α → List β) (l : List α) :
    l.flatMap f = [] ↔ ∀ a ∈ l, f a = [] := by
  induction l with
  | nil => simp
  | cons x xs ih => simp [List.flatMap_cons, List.append_eq_nil, ih]

theorem proc_records_kept (recs : List (String × Detail)) :
    (proc_records recs).1 = recs.filterMap kept_record := by
  induction recs with
  | nil => simp [proc_records]
  | cons p rest ih =>
    obtain ⟨name, d⟩ := p
    cases d with
    | str s => cases s <;> simp [proc_records, kept_record, ih]
    | dictDT s ex => cases s <;> simp [proc_records, kept_record, ih]
    | dictNonStrDT => simp [proc_records, kept_record, ih]
    | dictNoDT => simp [proc_records, kept_record, ih]
    | other => simp [proc_records, kept_record, ih]

theorem proc_records_times (recs : List (String × Detail)) :
    (proc_records recs).2.1 = recs.filterMap (fun r => recordTime r.2) := by
  induction recs with
  | nil => simp [proc_records]
  | cons p rest ih =>
    obtain ⟨name, d⟩ := p
    cases d with
    | str s => cases s <;> simp [proc_records, recordTime, ih]
    | dictDT s ex => cases s <;> simp [proc_records, recordTime, ih]
    | dictNonStrDT => simp [proc_records, recordTime, ih]
    | dictNoDT => simp [proc_records, recordTime, ih]
    | other => simp [proc_records, recordTime, ih]

theorem proc_records_warns (recs : List (String × Detail)) :
    (proc_records recs).2.2 =
      recs.filterMap (fun r => if warn_shape r.2 then some r.1 else none) := by
  induction recs with
  | nil => simp [proc_records]
  | cons p rest ih =>
    obtain ⟨name, d⟩ := p
    cases d with
    | str s => cases s <;> simp [proc_records, warn_shape, ih]
    | dictDT s ex => cases s <;> simp [proc_records, warn_shape, ih]
    | dictNonStrDT => simp [proc_records, warn_shape, ih]
    | dictNoDT => simp [proc_records, warn_shape, ih]
    | other => simp [proc_records, warn_shape, ih]

theorem kept_detailTime (recs : List (String × Detail)) :
    (proc_records recs).1.filterMap (fun r => detailTime r.2) =
      (proc_records recs).2.1 := by
  rw [proc_records_kept, proc_records_times, List.filterMap_filterMap]
  apply List.filterMap_congr
  intro x _
  obtain ⟨name, d⟩ := x
  cases d with
  | str s => cases s <;> rfl
  | dictDT s ex => cases s <;> rfl
  | dictNonStrDT => rfl
  | dictNoDT => rfl
  | other => rfl

theorem load_core_times (raw : Raw) :
    ∀ ev0, (load_core raw ev0).2.1 = all_raw_times raw := by
  induction raw with
  | nil => intro ev0; simp [load_core, all_raw_times]
  | cons p rest ih =>
    intro ev0
    obtain ⟨ent, recs⟩ := p
    simp [load_core, all_raw_times, List.flatMap_cons, proc_records_times, ih]

theorem load_core_warns (raw : Raw) :
    ∀ ev0, (load_core raw ev0).2.2 =
      raw.flatMap (fun p =>
        (p.2.filterMap (fun r => if warn_shape r.2 then some r.1 else none)).map
          (fun w => (p.1, w))) := by
  induction raw with
  | nil => intro ev0; simp [load_core]
  | cons p rest ih =>
    intro ev0
    obtain ⟨ent, recs⟩ := p
    simp [load_core, List.flatMap_cons, proc_records_warns, ih]

theorem load_core_events_of_nodup (raw : Raw) :
    ∀ ev0, (raw.map Prod.fst).Nodup →
      (∀ k ∈ raw.map Prod.fst, k ∉ ev0.map Prod.fst) →
      (load_core raw ev0).1 =
        ev0 ++ raw.map (fun p => (p.1, EntityVal.evs (proc_records p.2).1)) := by
  induction raw with
  | nil => intro ev0 _ _; simp [load_core]
  | cons p rest ih =>
    intro ev0 hn hdis
    obtain ⟨ent, recs⟩ := p
    simp only [List.map_cons, List.nodup_cons] at hn
    have hupd : updAL ent (EntityVal.evs (proc_records recs).1) ev0 =
        ev0 ++ [(ent, EntityVal.evs (proc_records recs).1)] :=
      updAL_of_not_mem (hdis ent (by simp)) _
    have hstep : (load_core ((ent, recs) :: rest) ev0).1 =
        (load_core rest (updAL ent (EntityVal.evs (proc_records recs).1) ev0)).1 := rfl
    rw [hstep, hupd, ih _ hn.2 ?_]
    · simp
    · intro k hk
      simp only [List.map_append, List.mem_append, List.map_cons]
      push_neg
      constructor
      · exact hdis k (by simp [hk])
      · simp only [List.map_nil, List.mem_singleton]
        intro hke
        exact hn.1 (hke ▸ hk)

theorem load_events_eq (raw : Raw) (now : Nat)
    (hn : (raw.map Prod.fst).Nodup) :
    (load_event_data raw now).events =
      updAL "min_datetime" (.dt (min_datetime_of raw now))
        (raw.map (fun p => (p.1, EntityVal.evs (proc_records p.2).1))) := by
  unfold load_event_data min_datetime_of
  simp only
  rw [load_core_times raw [], load_core_events_of_nodup raw [] hn (by simp)]
  simp

theorem load_warnings_eq (raw : Raw) (now : Nat) :
    (load_event_data raw now).warnings =
      raw.flatMap (fun p =>
        (p.2.filterMap (fun r => if warn_shape r.2 then some r.1 else none)).map
          (fun w => (p.1, w))) := by
  unfold load_event_data
  simp only
  rw [load_core_warns raw []]

theorem collect_times_append (l1 l2 : List (String × EntityVal)) :
    collect_times (l1 ++ l2) = collect_times l1 ++ collect_times l2 := by
  induction l1 with
  | nil => simp [collect_times]
  | cons p t ih =>
    obtain ⟨k, v⟩ := p
    by_cases hk : k = "min_datetime"
    · simp [collect_times, hk, ih]
    · cases v <;> simp [collect_times, hk, ih]

theorem collect_times_updMD (ev : List (String × EntityVal)) (m : Nat) :
    collect_times (updAL "min_datetime" (.dt m) ev) = collect_times ev := by
  induction ev with
  | nil => simp [updAL, collect_times]
  | cons p t ih =>
    obtain ⟨k, v⟩ := p
    by_cases hk : k = "min_datetime"
    · subst hk
      simp [updAL, collect_times]
    · cases v <;> simp [updAL, collect_times, hk, ih]

theorem collect_times_map_kept (raw : Raw) :
    collect_times (raw.map (fun p => (p.1, EntityVal.evs (proc_records p.2).1))) =
      raw.flatMap (fun p =>
        if p.1 = "min_datetime" then []
        else p.2.filterMap (fun r => recordTime r.2)) := by
  induction raw with
  | nil => simp [collect_times]
  | cons p rest ih =>
    obtain ⟨ent, recs⟩ := p
    by_cases hk : ent = "min_datetime"
    · simp [collect_times, List.flatMap_cons, hk, ih]
    · simp only [List.map_cons, collect_times, hk, if_neg hk, List.flatMap_cons, ih]
      rw [kept_detailTime, proc_records_times]
      simp

theorem collect_times_load (raw : Raw) (now : Nat)
    (hn : (raw.map Prod.fst).Nodup) :
    collect_times (load_event_data raw now).events =
      raw.flatMap (fun p =>
        if p.1 = "min_datetime" then []
        else p.2.filterMap (fun r => recordTime r.2)) := by
  rw [load_events_eq raw now hn, collect_times_updMD, collect_times_map_kept]

theorem load_lookup_entity (raw : Raw) (now : Nat)
    (hn : (raw.map Prod.fst).Nodup) {ent : String}
    {recs : List (String × Detail)} (hmem : (ent, recs) ∈ raw)
    (hne : ent ≠ "min_datetime") :
    lookupAL ent (load_event_data raw now).events =
      some (.evs (recs.filterMap kept_record)) := by
  rw [load_events_eq raw now hn, lookupAL_updAL_ne hne]
  have hkeys : (raw.map (fun p => (p.1, EntityVal.evs (proc_records p.2).1))).map
      Prod.fst = raw.map Prod.fst := by
    simp [List.map_map, Function.comp]
  apply lookupAL_of_mem_nodup (by rw [hkeys]; exact hn)
  rw [← proc_records_kept]
  exact List.mem_map.mpr ⟨(ent, recs), hmem, rfl⟩

theorem generate_load_error_iff (raw : Raw) (now : Nat)
    (hn : (raw.map Prod.fst).Nodup) :
    (∃ m, generate_time_intervals (load_event_data raw now).events = .error m) ↔
      no_valid_outside_sentinel raw := by
  rw [generate_error_iff, collect_times_load raw now hn, flatMap_nil_iff]
  unfold no_valid_outside_sentinel
  constructor
  · intro h p hp hne r hr
    have hp2 := h p hp
    rw [if_neg hne] at hp2
    exact List.filterMap_eq_nil_iff.mp hp2 r hr
  · intro h p hp
    by_cases hne : p.1 = "min_datetime"
    · rw [if_pos hne]
    · rw [if_neg hne]
      exact List.filterMap_eq_nil_iff.mpr (fun r hr => h p hp hne r hr)

/-- C4 counterexample: (i) on `raw_silent`, the record `"bad"` (a dict
whose `"DateTime"` is not a string — not an accepted shape) is skipped
but NO warning is recorded, refuting "skipped with a recorded warning";
(ii) on `raw_sentinel`, one timestamp parses successfully (as the third
conjunct documents) yet the load pipeline still fails with the
no-valid-bounds error, refuting "fails exactly when zero timestamps
parse". -/
theorem C4_counterexample :
    ((load_event_data raw_silent 0).warnings = [] ∧
      lookupAL "A" (load_event_data raw_silent 0).events =
        some (.evs [("good", .dictDT (some 0) [])])) ∧
    (∃ m, generate_time_intervals (load_event_data raw_sentinel 5).events =
      .error m) ∧
    recordTime (Detail.str (some 0)) = some 0 :=
  ⟨⟨rfl, rfl⟩, ⟨_, rfl⟩, rfl⟩

/-- C4 amended: per-record problems never abort the load — every entity's
parseable records are all kept (with a plain string wrapped into the dict
shape) no matter what malformed records sit next to them; the recorded
warnings are exactly the skipped records of a warning shape (a dict whose
`"DateTime"` value is a non-string is skipped silently); and the load
pipeline fails with the no-valid-bounds error exactly when zero
timestamps parse successfully from entities not literally named
`"min_datetime"`. -/
theorem C4_tolerant_load (raw : Raw) (now : Nat)
    (hn : (raw.map Prod.fst).Nodup) :
    (∀ ent recs, (ent, recs) ∈ raw → ent ≠ "min_datetime" →
      lookupAL ent (load_event_data raw now).events =
        some (.evs (recs.filterMap kept_record))) ∧
    (load_event_data raw now).warnings =
      raw.flatMap (fun p =>
        (p.2.filterMap (fun r => if warn_shape r.2 then some r.1 else none)).map
          (fun w => (p.1, w))) ∧
    ((∃ m, generate_time_intervals (load_event_data raw now).events = .error m) ↔
      no_valid_outside_sentinel raw) :=
  ⟨fun _ _ hmem hne => load_lookup_entity raw now hn hmem hne,
    load_warnings_eq raw now, generate_load_error_iff raw now hn⟩

/-- Witness: the warning characterization of `C4_tolerant_load` at the
concrete payload `raw_silent`. -/
theorem C4_witness :
    (load_event_data raw_silent 0).warnings =
      raw_silent.flatMap (fun p =>
        (p.2.filterMap (fun r => if warn_shape r.2 then some r.1 else none)).map
          (fun w => (p.1, w))) :=
  (C4_tolerant_load raw_silent 0 (by decide)).2.1

/-- C5 counterexample: loading a structurally well-formed payload with
zero valid timestamps makes the pipeline raise (the no-valid-bounds
error), yet the previously loaded dataset is NOT left intact — the
events mapping has already been replaced when the exception fires. -/
theorem C5_counterexample :
    (∃ m, generate_time_intervals (load_event_data raw_bad 999).events =
      .error m) ∧
    open_file st_old (some raw_bad) 999 ≠ st_old ∧
    (open_file st_old (some raw_bad) 999).events ≠ st_old.events :=
  ⟨⟨_, rfl⟩, by decide, by decide⟩

/-- C5 amended: a load attempt that fails before `self.events` is
assigned (no file selected, unreadable file, unparseable or structurally
malformed JSON) leaves all state unchanged; but a load attempt that fails
because zero timestamps parse (from entities not named `"min_datetime"`)
replaces the events mapping with the newly loaded one while only
`time_intervals` keeps its previous value — failed loads are not
all-or-nothing in that case. -/
theorem C5_failed_load_keeps_old_intervals (st : AppState) (raw : Raw)
    (now : Nat) (hn : (raw.map Prod.fst).Nodup) :
    open_file st none now = st ∧
    (no_valid_outside_sentinel raw →
      open_file st (some raw) now =
        ⟨(load_event_data raw now).events, st.time_intervals⟩) := by
  refine ⟨rfl, fun h => ?_⟩
  obtain ⟨m, hm⟩ := (generate_load_error_iff raw now hn).mpr h
  simp only [open_file]
  rw [hm]

/-- Witness: `C5_failed_load_keeps_old_intervals` at the concrete state
`st_old` and the zero-valid-timestamp payload `raw_bad`. -/
theorem C5_witness :
    open_file st_old (some raw_bad) 999 =
      ⟨(load_event_data raw_bad 999).events, st_old.time_intervals⟩ :=
  (C5_failed_load_keeps_old_intervals st_old raw_bad 999 (by decide)).2
    (by decide)

/-! ### Sentinel-key lemmas -/

theorem dot_ops_go_filter (ev : List (String × EntityVal)) :
    ∀ (row : Nat) (intervals : List Nat),
      dot_ops_go (ev.filter (fun p => p.1 ≠ "min_datetime")) row intervals =
        dot_ops_go ev row intervals := by
  induction ev with
  | nil => intro row intervals; rfl
  | cons p rest ih =>
    intro row intervals
    obtain ⟨k, v⟩ := p
    by_cases hk : k = "min_datetime"
    · subst hk
      have hf : List.filter (fun p => p.1 ≠ "min_datetime")
          (("min_datetime", v) :: rest) =
          List.filter (fun p => p.1 ≠ "min_datetime") rest := by simp
      have hgo : dot_ops_go (("min_datetime", v) :: rest) row intervals =
          dot_ops_go rest row intervals := by simp [dot_ops_go]
      rw [hf, hgo]
      exact ih row intervals
    · have hf : List.filter (fun p => p.1 ≠ "min_datetime") ((k, v) :: rest) =
          (k, v) :: List.filter (fun p => p.1 ≠ "min_datetime") rest := by
        simp [hk]
      rw [hf]
      cases v with
      | evs recs =>
        simp only [dot_ops_go, if_neg hk]
        rw [ih (row + 1) intervals]
      | dt t =>
        simp only [dot_ops_go, if_neg hk]
        exact ih (row + 1) intervals

theorem collect_times_filter (ev : List (String × EntityVal)) :
    collect_times (ev.filter (fun p => p.1 ≠ "min_datetime")) =
      collect_times ev := by
  induction ev with
  | nil => rfl
  | cons p rest ih =>
    obtain ⟨k, v⟩ := p
    by_cases hk : k = "min_datetime"
    · subst hk
      have hf : List.filter (fun p => p.1 ≠ "min_datetime")
          (("min_datetime", v) :: rest) =
          List.filter (fun p => p.1 ≠ "min_datetime") rest := by simp
      have hco : collect_times (("min_datetime", v) :: rest) =
          collect_times rest := by simp [collect_times]
      rw [hf, hco]
      exact ih
    · have hf : List.filter (fun p => p.1 ≠ "min_datetime") ((k, v) :: rest) =
          (k, v) :: List.filter (fun p => p.1 ≠ "min_datetime") rest := by
        simp [hk]
      rw [hf]
      cases v with
      | evs recs => simp only [collect_times, if_neg hk]; rw [ih]
      | dt t => simp only [collect_times, if_neg hk]; exact ih

theorem load_keys_nodup (raw : Raw) (now : Nat)
    (hn : (raw.map Prod.fst).Nodup) :
    ((load_event_data raw now).events.map Prod.fst).Nodup := by
  rw [load_events_eq raw now hn]
  have hkeys : (raw.map (fun p => (p.1, EntityVal.evs (proc_records p.2).1))).map
      Prod.fst = raw.map Prod.fst := by
    simp [List.map_map, Function.comp]
  by_cases hmem : "min_datetime" ∈
      (raw.map (fun p => (p.1, EntityVal.evs (proc_records p.2).1))).map Prod.fst
  · rw [keys_updAL_mem hmem, hkeys]
    exact hn
  · rw [updAL_of_not_mem hmem]
    simp only [List.map_append, hkeys]
    simp only [List.map_cons, List.map_nil]
    apply List.Nodup.append hn (List.nodup_singleton _)
    intro a ha hb
    simp only [List.mem_singleton] at hb
    subst hb
    rw [hkeys] at hmem
    exact hmem ha

/-- C10: for every payload, the mapping `load_event_data` returns binds
the reserved key `"min_datetime"` to the minimum successfully parsed
timestamp (the `datetime.now()` fallback when none parse), alongside the
entity keys in the same (duplicate-free) mapping — so an input entity
literally named `"min_datetime"` is overwritten by this sentinel — and
the downstream consumers skip that key: the binning pass and the interval
generator's time collection behave exactly as if every `"min_datetime"`
binding were absent. -/
theorem C10_sentinel_key (raw : Raw) (now : Nat)
    (hn : (raw.map Prod.fst).Nodup) :
    lookupAL "min_datetime" (load_event_data raw now).events =
      some (.dt (min_datetime_of raw now)) ∧
    ((load_event_data raw now).events.map Prod.fst).Nodup ∧
    (∀ intervals, dot_ops (load_event_data raw now).events intervals =
      dot_ops ((load_event_data raw now).events.filter
        (fun p => p.1 ≠ "min_datetime")) intervals) ∧
    collect_times (load_event_data raw now).events =
      collect_times ((load_event_data raw now).events.filter
        (fun p => p.1 ≠ "min_datetime")) := by
  refine ⟨?_, load_keys_nodup raw now hn, ?_, ?_⟩
  · rw [load_events_eq raw now hn]
    exact lookupAL_updAL_self _ _ _
  · intro intervals
    exact (dot_ops_go_filter _ 2 intervals).symm
  · exact (collect_times_filter _).symm

/-- Witness: the sentinel binding of `C10_sentinel_key` at the concrete
payload `rawW`, whose first entity is itself named `"min_datetime"`. -/
theorem C10_witness :
    lookupAL "min_datetime" (load_event_data rawW 7).events =
      some (.dt (min_datetime_of rawW 7)) :=
  (C10_sentinel_key rawW 7 (by decide)).1

/-! ### Classification lemmas -/

theorem row_points_colors (recs : List (String × Detail)) (i : Nat)
    (ev : List (String × EntityVal)) :
    ∀ ps : List SPoint, row_points recs i ev = .ok ps →
      ∀ p ∈ ps, (p.color = hex_of "truth" ∨ p.color = hex_of "match") ∧
        p.color ≠ hex_of "discrepancy" ∧
        (p.color = hex_of "truth" ↔ p.tooltipName = "Flight Departure") := by
  induction recs with
  | nil =>
    intro ps h p hp
    simp only [row_points, Except.ok.injEq] at h
    subst h
    simp at hp
  | cons r rest ih =>
    intro ps h p hp
    obtain ⟨name, d⟩ := r
    simp only [row_points] at h
    cases hd : draw_time d with
    | none =>
      rw [hd] at h
      exact ih ps h p hp
    | some o =>
      cases o with
      | none => rw [hd] at h; exact absurd h (by simp)
      | some t =>
        rw [hd] at h
        cases hl : lookupAL "min_datetime" ev with
        | none => rw [hl] at h; exact absurd h (by simp)
        | some v =>
          cases v with
          | evs recs2 => rw [hl] at h; exact absurd h (by simp)
          | dt m =>
            rw [hl] at h
            cases hrest : row_points rest i ev with
            | error e =>
              rw [hrest] at h
              exact absurd h (by simp [Bind.bind, Except.bind])
            | ok ps' =>
              rw [hrest] at h
              simp only [Bind.bind, Except.bind, Except.ok.injEq] at h
              subst h
              rcases List.mem_cons.mp hp with hp | hp
              · subst hp
                by_cases hname : name = "Flight Departure" <;>
                  simp [hname, hex_of, draw_colors, lookupAL]
              · exact ih ps' hrest p hp

theorem draw_rows_colors (labs : List (Nat × String))
    (ev : List (String × EntityVal)) :
    ∀ ps : List SPoint, draw_rows labs ev = .ok ps →
      ∀ p ∈ ps, (p.color = hex_of "truth" ∨ p.color = hex_of "match") ∧
        p.color ≠ hex_of "discrepancy" ∧
        (p.color = hex_of "truth" ↔ p.tooltipName = "Flight Departure") := by
  induction labs with
  | nil =>
    intro ps h p hp
    simp only [draw_rows, Except.ok.injEq] at h
    subst h
    simp at hp
  | cons q rest ih =>
    intro ps h p hp
    obtain ⟨i, lab⟩ := q
    simp only [draw_rows] at h
    cases hl : lookupAL lab ev with
    | none => rw [hl] at h; exact ih ps h p hp
    | some v =>
      cases v with
      | dt m => rw [hl] at h; exact ih ps h p hp
      | evs recs =>
        rw [hl] at h
        have h2 : (do
            let ps1 ← row_points recs i ev
            let qs ← draw_rows rest ev
            Except.ok (ps1 ++ qs)) = Except.ok ps := h
        cases hrp : row_points recs i ev with
        | error e =>
          rw [hrp] at h2
          exact absurd h2 (by simp [Bind.bind, Except.bind])
        | ok ps1 =>
          rw [hrp] at h2
          cases hdr : draw_rows rest ev with
          | error e =>
            rw [hdr] at h2
            exact absurd h2 (by simp [Bind.bind, Except.bind])
          | ok ps2 =>
            rw [hdr] at h2
            simp only [Bind.bind, Except.bind, Except.ok.injEq] at h2
            subst h2
            rcases List.mem_append.mp hp with hp | hp
            · exact row_points_colors recs i ev ps1 hrp p hp
            · exact ih ps2 hdr p hp

/-- C8 counterexample: on the concrete dataset `evD` the code tags both
entities' `"Flight Departure"` events with the truth color and entity
`"A"`'s `"Arrival"` with the match color; no choice of designated
reference entity makes the claimed truth/match/discrepancy rule reproduce
those three colors, so the classification is not "truth exactly for the
reference entity's events". -/
theorem C8_counterexample :
    draw_data_points evD ["A", "B"] =
      .ok [⟨0, 1 / 2, "#2E8B57", "Flight Departure"⟩,
           ⟨10, 1 / 2, "#6495ED", "Arrival"⟩,
           ⟨0, 3 / 2, "#2E8B57", "Flight Departure"⟩] ∧
    ¬ ∃ ref : String,
        ("#2E8B57" = hex_of (spec_category ref "A" 0 (truth_times ref)) ∧
         "#6495ED" = hex_of (spec_category ref "A" 600 (truth_times ref)) ∧
         "#2E8B57" = hex_of (spec_category ref "B" 0 (truth_times ref))) := by
  constructor
  · simp [draw_data_points, draw_rows, row_points, evD, List.enum,
      List.enumFrom, lookupAL, draw_time, Bind.bind, Except.bind]
    norm_num
  · rintro ⟨ref, h1, h2, h3⟩
    by_cases hA : ref = "A"
    · subst hA
      simp [spec_category, truth_times, hex_of, draw_colors, lookupAL] at h2
    · simp only [spec_category] at h1
      rw [if_neg (fun hh => hA hh.symm)] at h1
      split_ifs at h1 <;> simp [hex_of, draw_colors, lookupAL] at h1

/-- C8 amended: the classification in `draw_data_points` is hard-coded,
not a caller-supplied strategy, and knows no reference entity: every
drawn point is colored with the `"truth"` color exactly when its event
name is `"Flight Departure"` and with the `"match"` color otherwise; the
`"discrepancy"` color from the palette is never assigned. -/
theorem C8_classification_hardcoded (ev : List (String × EntityVal))
    (labels : List String) (ps : List SPoint)
    (h : draw_data_points ev labels = .ok ps) :
    ∀ p ∈ ps, (p.color = hex_of "truth" ∨ p.color = hex_of "match") ∧
      p.color ≠ hex_of "discrepancy" ∧
      (p.color = hex_of "truth" ↔ p.tooltipName = "Flight Departure") :=
  draw_rows_colors labels.enum ev ps h

/-- Witness: `C8_classification_hardcoded` at the concrete dataset `evD`,
specialized to the `"Arrival"` point. -/
theorem C8_witness :
    ((⟨10, 1 / 2, "#6495ED", "Arrival"⟩ : SPoint).color = hex_of "truth" ∨
      (⟨10, 1 / 2, "#6495ED", "Arrival"⟩ : SPoint).color = hex_of "match") ∧
    (⟨10, 1 / 2, "#6495ED", "Arrival"⟩ : SPoint).color ≠ hex_of "discrepancy" ∧
    ((⟨10, 1 / 2, "#6495ED", "Arrival"⟩ : SPoint).color = hex_of "truth" ↔
      (⟨10, 1 / 2, "#6495ED", "Arrival"⟩ : SPoint).tooltipName =
        "Flight Departure") :=
  C8_classification_hardcoded evD ["A", "B"]
    [⟨0, 1 / 2, "#2E8B57", "Flight Departure"⟩,
     ⟨10, 1 / 2, "#6495ED", "Arrival"⟩,
     ⟨0, 3 / 2, "#2E8B57", "Flight Departure"⟩]
    (by
      simp [draw_data_points, draw_rows, row_points, evD, List.enum,
        List.enumFrom, lookupAL, draw_time, Bind.bind, Except.bind]
      norm_num)
    ⟨10, 1 / 2, "#6495ED", "Arrival"⟩ (by simp)

/-- C9 counterexample: for the spec's worked example the code generates
all eight 6-hour buckets of day 1 and day 2 (the sequence ends at the
midnight that starts day 3), not a sequence stopping after the day-2
`[00:00,06:00)` bucket as the claim enumerates. -/
theorem C9_counterexample :
    generate_time_intervals ev9 = .ok full9 ∧
    full9 ≠ [0, 360, 720, 1080, 1440] :=
  ⟨rfl, by decide⟩

/-- C9 amended: for the worked example the generated buckets are the
eight 6-hour buckets covering days 1 and 2 (`full9`); the event at 06:00
(minute 360) lands in the `[06:00,12:00)` bucket — table column 2, i.e.
bucket index 1 — with fraction 0, and the event at 2024-01-02T03:00
(minute 1620) lands in the day-2 `[00:00,06:00)` bucket — table column 5,
bucket index 4 — with fraction 1/2, as the claim states for the event
placements. -/
theorem C9_worked_example :
    generate_time_intervals ev9 = .ok full9 ∧
    populate_table ev9 full9 [] =
      [((2, 2), [⟨"e1", 360, 0⟩]), ((2, 3), [⟨"e2", 720, 0⟩]),
       ((2, 5), [⟨"e3", 1620, 1 / 2⟩])] := by
  refine ⟨rfl, ?_⟩
  have h9 : ev9 = [("A", .evs [("e1", .dictDT (some 360) []),
      ("e2", .dictDT (some 720) []), ("e3", .dictDT (some 1620) [])]),
      ("min_datetime", .dt 360)] := rfl
  rw [show populate_table ev9 full9 [] =
      apply_ops (dot_ops ev9 full9) [] from rfl, h9]
  simp [dot_ops, dot_ops_go, row_ops, full9, List.enum, List.enumFrom,
    apply_ops, appendDot, updCell, cellDots, time_fraction]
  norm_num

end TDV
